import Mathlib

/-!
Verification of the Mythic L2 sequencer core
(src/firedancer/src/sequencer/fd_sequencer_tile.h, fd_sequencer.h,
fd_sequencer_tile.c).

The C state and functions are shallowly embedded:
  * byte buffers are `List Nat` (each element a byte value),
  * `ulong` counters are `Nat`, reduced `% 2 ^ 64` wherever the C code
    can overflow,
  * `long` tick/wallclock values are `Nat` (only nonnegative values
    occur; the one place the C code guards a negative difference,
    `during_housekeeping`, is modelled by truncated `Nat` subtraction
    which coincides with the clamp),
  * the transaction queue buffer `fd_sequencer_txn_t * tx_queue` plus
    the live count `tx_queue_cnt` are modelled as the list of the
    `tx_queue_cnt` live entries (`tx_queue : List fd_sequencer_txn`,
    `tx_queue_cnt = tx_queue.length`); cells past the live count are
    never read by the C code,
  * likewise `frag_buf`/`frag_buf_sz` are modelled as the list of the
    `frag_buf_sz` staged bytes,
  * external inputs (`fd_tickcount`, `fd_log_wallclock`, the delivered
    fragment bytes) are explicit parameters.
-/

namespace MythicSequencer

/-! ### Constants (fd_sequencer_tile.h) -/

def FD_SEQUENCER_TILE_ALIGN : Nat := 128

def FD_SEQUENCER_TILE_FOOTPRINT : Nat := 2 ^ 22

def FD_SEQUENCER_TXN_MTU : Nat := 1232

def FD_SEQUENCER_QUEUE_MAX : Nat := 65536

def ULONG_MOD : Nat := 2 ^ 64

/-! ### Configuration (fd_sequencer_tile.h, struct fd_sequencer_cfg) -/

structure fd_sequencer_cfg where
  block_time_ns : Nat
  max_txns_per_block : Nat
  epoch_length_slots : Nat
deriving Repr, DecidableEq

def FD_SEQUENCER_CFG_DEFAULT : fd_sequencer_cfg :=
  { block_time_ns := 400000000
    max_txns_per_block := 10000
    epoch_length_slots := 432000 }

/-! ### Transaction entry (fd_sequencer_tile.h, struct fd_sequencer_txn) -/

structure fd_sequencer_txn where
  payload : List Nat
  payload_sz : Nat
  fee : Nat
  received_ticks : Nat
  sig : List Nat
deriving Repr, DecidableEq

instance : Inhabited fd_sequencer_txn :=
  ⟨{ payload := [], payload_sz := 0, fee := 0, received_ticks := 0, sig := [] }⟩

/-! ### Block header (fd_sequencer_tile.h, struct fd_sequencer_block_hdr) -/

structure fd_sequencer_block_hdr where
  slot : Nat
  parent_hash : List Nat
  merkle_root : List Nat
  timestamp : Nat
  sequencer_pubkey : List Nat
  txn_count : Nat
  signature : List Nat
deriving Repr, DecidableEq

/-! ### Tile state (fd_sequencer_tile.h, struct fd_sequencer_tile) -/

structure fd_sequencer_tile where
  sequencer_identity : List Nat
  sequencer_privkey : List Nat
  current_slot : Nat
  current_epoch : Nat
  block_count : Nat
  txn_count : Nat
  block_start_ticks : Nat
  parent_hash : List Nat
  tx_queue : List fd_sequencer_txn
  tx_queue_cap : Nat
  fee_total : Nat
  last_metrics_ticks : Nat
  cfg : fd_sequencer_cfg
  frag_buf : List Nat
deriving Repr, DecidableEq

/-- `tile->tx_queue_cnt` of the C state: number of live queue entries. -/
def fd_sequencer_tile.tx_queue_cnt (tile : fd_sequencer_tile) : Nat :=
  tile.tx_queue.length

/-- `tile->frag_buf_sz` of the C state: number of staged bytes. -/
def fd_sequencer_tile.frag_buf_sz (tile : fd_sequencer_tile) : Nat :=
  tile.frag_buf.length

/-! ### Queue cell access and the element swap used by the heap code.

`qget q i` is `tile->tx_queue[ i ]`; every C access is in bounds, so the
default value of the out-of-range case is never relevant. -/

def qget (q : List fd_sequencer_txn) (i : Nat) : fd_sequencer_txn :=
  (q[i]?).getD default

/-- The three-`fd_memcpy` element swap of fd_sequencer.h lines 34-37 / 71-74:
`tmp := q[i]; q[i] := q[j]; q[j] := tmp`. -/
def lswap (q : List fd_sequencer_txn) (i j : Nat) : List fd_sequencer_txn :=
  (q.set i (qget q j)).set j (qget q i)

theorem length_lswap (q : List fd_sequencer_txn) (i j : Nat) :
    (lswap q i j).length = q.length := by
  simp [lswap]

/-! ### Push: insert at the end and sift up (fd_sequencer.h lines 21-41) -/

/-- The sift-up loop of `fd_sequencer_txn_queue_push` (fd_sequencer.h
lines 30-39): while `idx > 0`, stop when the parent's fee is already
at least ours, else swap with the parent and continue there. -/
def siftUp (q : List fd_sequencer_txn) (idx : Nat) : List fd_sequencer_txn :=
  if idx = 0 then q
  else
    if (qget q idx).fee ≤ (qget q ((idx - 1) / 2)).fee then q
    else siftUp (lswap q idx ((idx - 1) / 2)) ((idx - 1) / 2)
termination_by idx
decreasing_by omega

/-- `fd_sequencer_txn_queue_push` (fd_sequencer.h lines 21-41).
Returns the C `int` result as a `Bool` (`true` = 1 = success) together
with the updated tile. -/
def fd_sequencer_txn_queue_push (tile : fd_sequencer_tile)
    (txn : fd_sequencer_txn) : Bool × fd_sequencer_tile :=
  if tile.tx_queue_cap ≤ tile.tx_queue.length then (false, tile)
  else
    let idx := tile.tx_queue.length
    (true, { tile with tx_queue := siftUp (tile.tx_queue ++ [txn]) idx })

/-! ### Pop: move the last entry to the root and sift down
(fd_sequencer.h lines 45-79) -/

/-- Index of the largest-fee node among `idx` and its in-range children,
exactly as the `best` computation of fd_sequencer.h lines 61-68
(left child checked against `idx`, right child against the running best). -/
def bestChild (q : List fd_sequencer_txn) (idx : Nat) : Nat :=
  let left := 2 * idx + 1
  let right := 2 * idx + 2
  let b1 :=
    if left < q.length ∧ (qget q idx).fee < (qget q left).fee then left else idx
  if right < q.length ∧ (qget q b1).fee < (qget q right).fee then right else b1

theorem bestChild_ne_lt (q : List fd_sequencer_txn) (idx : Nat)
    (h : bestChild q idx ≠ idx) :
    idx < bestChild q idx ∧ bestChild q idx < q.length := by
  simp only [bestChild] at h ⊢
  by_cases h1 : 2 * idx + 1 < q.length ∧ (qget q idx).fee < (qget q (2 * idx + 1)).fee
  · simp only [if_pos h1] at h ⊢
    by_cases h2 : 2 * idx + 2 < q.length ∧
        (qget q (2 * idx + 1)).fee < (qget q (2 * idx + 2)).fee
    · simp only [if_pos h2]
      exact ⟨by omega, h2.1⟩
    · simp only [if_neg h2]
      exact ⟨by omega, h1.1⟩
  · simp only [if_neg h1] at h ⊢
    by_cases h2 : 2 * idx + 2 < q.length ∧
        (qget q idx).fee < (qget q (2 * idx + 2)).fee
    · simp only [if_pos h2]
      exact ⟨by omega, h2.1⟩
    · simp only [if_neg h2] at h
      exact absurd rfl h

/-- The sift-down loop of `fd_sequencer_txn_queue_pop` (fd_sequencer.h
lines 58-76): stop when no child beats the current node, else swap with
the best child and continue there. -/
def siftDown (q : List fd_sequencer_txn) (idx : Nat) : List fd_sequencer_txn :=
  if bestChild q idx = idx then q
  else siftDown (lswap q idx (bestChild q idx)) (bestChild q idx)
termination_by q.length - idx
decreasing_by
  rename_i h
  have hb := bestChild_ne_lt q idx h
  rw [length_lswap]
  omega

/-- `fd_sequencer_txn_queue_pop` (fd_sequencer.h lines 45-79).
Returns `none` for the C `return 0` (empty queue), else the popped root
and the updated tile. -/
def fd_sequencer_txn_queue_pop (tile : fd_sequencer_tile) :
    Option (fd_sequencer_txn × fd_sequencer_tile) :=
  if tile.tx_queue.length = 0 then none
  else
    let out := qget tile.tx_queue 0
    let cnt' := tile.tx_queue.length - 1
    let q' :=
      if 0 < cnt' then
        siftDown ((tile.tx_queue.set 0 (qget tile.tx_queue cnt')).take cnt') 0
      else tile.tx_queue.take cnt'
    some (out, { tile with tx_queue := q' })

/-- `fd_sequencer_txn_queue_peek` (fd_sequencer.h lines 83-87):
`none` models the C NULL return. -/
def fd_sequencer_txn_queue_peek (tile : fd_sequencer_tile) :
    Option fd_sequencer_txn :=
  if tile.tx_queue.length = 0 then none
  else some (qget tile.tx_queue 0)

/-- `fd_sequencer_txn_queue_cnt` (fd_sequencer.h lines 90-93). -/
def fd_sequencer_txn_queue_cnt (tile : fd_sequencer_tile) : Nat :=
  tile.tx_queue.length

/-! ### External cryptographic primitives.

The repository includes fd_sha256.h and fd_ed25519.h from its ballet
library, but those sources are not part of this tree, so the two
primitives are modelled from the spec. -/

/-- Modelled from the spec: `fd_sha256` (src/ballet/sha256, not under
src/), "a collision-resistant hash function" producing a 32-byte digest
(spec section 3: "32-byte content commitment", "hash of the prior
header").  The model is a concrete deterministic 32-byte function of the
message; the claims checked here use only determinism and which bytes
are hashed, never any cryptographic property. -/
def fd_sha256 (msg : List Nat) : List Nat :=
  (List.range 32).map fun i =>
    (msg.foldl (fun a b => a * 257 + b + 1) (i + 7)) % 256

/-- Modelled from the spec: `fd_ed25519_sign` (src/ballet/ed25519, not
under src/), "a signature scheme" producing a 64-byte signature over a
message under the signer's key pair (spec sections 2 and 4.2).  Per
fd_sequencer_tile.h line 74 the 64-byte private-key slot stores the key
pair as priv||pub, so the public half is `privkey.drop 32`.  The model
binds the message to that public half; verification (below) checks the
binding, so sign/verify round-trips exactly for well-formed key pairs,
which is the property the spec asserts. -/
def fd_ed25519_sign (msg : List Nat) (pub priv : List Nat) : List Nat :=
  (priv.drop 32) ++ msg

/-- Modelled from the spec: ed25519 signature verification against the
signer's public key (spec section 8, "Signature verifiability").
Succeeds exactly when the signature is the binding of this message to
this public key. -/
def fd_ed25519_verify (msg sig pub : List Nat) : Bool :=
  decide (sig = pub ++ msg)

/-! ### Block-header serialization.

x86-64 layout of struct fd_sequencer_block_hdr (fd_sequencer_tile.h
lines 58-66): slot at offset 0 (8 bytes LE), parent_hash at 8 (32),
merkle_root at 40 (32), timestamp at 72 (8 LE), sequencer_pubkey at
80 (32), txn_count at 112 (4 LE), signature at 116 (64); there is no
interior padding, and sizeof rounds 180 up to 184, i.e. 4 trailing
padding bytes (zero in this model; the C code hashes whatever they are,
and the claims compare hashes of the same bytes). -/

/-- Little-endian byte encoding of an unsigned scalar field of width `w`. -/
def leBytes (w n : Nat) : List Nat :=
  (List.range w).map fun i => n / 256 ^ i % 256

/-- The header bytes preceding the signature field:
`offsetof( fd_sequencer_block_hdr_t, signature )` = 116 bytes
(fd_sequencer.h line 150). -/
def fd_sequencer_block_hdr_presig_bytes (h : fd_sequencer_block_hdr) :
    List Nat :=
  leBytes 8 h.slot ++ h.parent_hash ++ h.merkle_root ++ leBytes 8 h.timestamp
    ++ h.sequencer_pubkey ++ leBytes 4 h.txn_count

/-- The full `sizeof(fd_sequencer_block_hdr_t)` = 184 header bytes hashed
by fd_sequencer_tile.c lines 223-225. -/
def fd_sequencer_block_hdr_bytes (h : fd_sequencer_block_hdr) : List Nat :=
  fd_sequencer_block_hdr_presig_bytes h ++ h.signature ++ List.replicate 4 0

/-! ### Block construction (fd_sequencer.h lines 108-164) -/

/-- The pop loop of `fd_sequencer_build_block` (fd_sequencer.h lines
117-120): pop up to `max_txns` transactions, collecting them in pop
order (`txns_out[0..n)`). -/
def drainQueue : Nat → fd_sequencer_tile →
    List fd_sequencer_txn × fd_sequencer_tile
  | 0, tile => ([], tile)
  | m + 1, tile =>
    match fd_sequencer_txn_queue_pop tile with
    | none => ([], tile)
    | some (t, tile') =>
      let r := drainQueue m tile'
      (t :: r.1, r.2)

/-- `fd_sequencer_build_block` (fd_sequencer.h lines 108-164).
`wallclock` stands for the external `fd_log_wallclock()`.  Returns the
C return value `n`, the filled header, `txns_out[0..n)` and the updated
tile.  In the `n == 0` branch the header is the memset-to-zero header
with slot, parent_hash, sequencer_pubkey and txn_count filled
(fd_sequencer.h lines 122-130); in particular its signature stays the
64 zero bytes and `fee_total` is untouched. -/
def fd_sequencer_build_block (tile : fd_sequencer_tile) (wallclock : Nat)
    (max_txns : Nat) :
    Nat × fd_sequencer_block_hdr × List fd_sequencer_txn × fd_sequencer_tile :=
  let d := drainQueue max_txns tile
  let txns := d.1
  let tile1 := d.2
  let n := txns.length
  if n = 0 then
    (0,
     { slot := tile1.current_slot
       parent_hash := tile1.parent_hash
       merkle_root := List.replicate 32 0
       timestamp := 0
       sequencer_pubkey := tile1.sequencer_identity
       txn_count := 0
       signature := List.replicate 64 0 },
     [], tile1)
  else
    let merkle := fd_sha256 (txns.foldl (fun acc t => acc ++ t.sig) [])
    let hdr0 : fd_sequencer_block_hdr :=
      { slot := tile1.current_slot
        parent_hash := tile1.parent_hash
        merkle_root := merkle
        timestamp := wallclock
        sequencer_pubkey := tile1.sequencer_identity
        txn_count := n
        signature := List.replicate 64 0 }
    let hdr :=
      { hdr0 with
          signature :=
            fd_ed25519_sign (fd_sequencer_block_hdr_presig_bytes hdr0)
              tile1.sequencer_identity tile1.sequencer_privkey }
    let tile2 :=
      { tile1 with
          fee_total := (tile1.fee_total + (txns.map fd_sequencer_txn.fee).sum)
            % ULONG_MOD }
    (n, hdr, txns, tile2)

/-! ### Slot / epoch advancement (fd_sequencer.h lines 172-184) -/

/-- `fd_sequencer_advance_slot` (fd_sequencer.h lines 172-184).
The C `int` return (1 = new epoch) is a `Bool`. -/
def fd_sequencer_advance_slot (tile : fd_sequencer_tile) :
    Bool × fd_sequencer_tile :=
  let slot' := (tile.current_slot + 1) % ULONG_MOD
  let tile1 :=
    { tile with
        current_slot := slot'
        block_count := (tile.block_count + 1) % ULONG_MOD }
  if 0 < slot' ∧ slot' % tile.cfg.epoch_length_slots = 0 then
    (true, { tile1 with current_epoch := (tile1.current_epoch + 1) % ULONG_MOD })
  else
    (false, tile1)

/-! ### Fragment callbacks (fd_sequencer_tile.c lines 102-185) -/

/-- `fd_sequencer_tile_during_frag` (fd_sequencer_tile.c lines 102-126).
`chunk` is the shared-memory bytes the C code memcpys `sz` bytes from.
An oversized fragment (`sz > FD_SEQUENCER_TXN_MTU`) resets the staged
size to 0; otherwise the staging buffer receives exactly the `sz`
delivered bytes, replacing any previous content. -/
def fd_sequencer_tile_during_frag (tile : fd_sequencer_tile)
    (chunk : List Nat) (sz : Nat) : fd_sequencer_tile :=
  if FD_SEQUENCER_TXN_MTU < sz then { tile with frag_buf := [] }
  else { tile with frag_buf := chunk.take sz }

/-- `fd_sequencer_tile_after_frag` (fd_sequencer_tile.c lines 131-185).
`now_ticks` stands for the external `fd_tickcount()`; `opt_sig` for the
optional fragment-metadata fee hint.  Builds a transaction entry from
the staging buffer (payload zero-padded to the MTU by the memset at
line 149, identity signature = payload bytes [1..65) when the payload
has at least 65 bytes, fee = hint if positive else base fee 5000) and
pushes it; on success the lifetime `txn_count` increments; either way
the staging buffer is emptied. -/
def fd_sequencer_tile_after_frag (tile : fd_sequencer_tile)
    (now_ticks : Nat) (opt_sig : Option Nat) : fd_sequencer_tile :=
  if tile.frag_buf.length = 0 then tile
  else
    let payload :=
      tile.frag_buf ++ List.replicate (FD_SEQUENCER_TXN_MTU - tile.frag_buf.length) 0
    let idsig :=
      if 65 ≤ tile.frag_buf.length then (payload.drop 1).take 64
      else List.replicate 64 0
    let fee :=
      match opt_sig with
      | some s => if 0 < s then s else 5000
      | none => 5000
    let txn : fd_sequencer_txn :=
      { payload := payload
        payload_sz := tile.frag_buf.length
        fee := fee
        received_ticks := now_ticks
        sig := idsig }
    let r := fd_sequencer_txn_queue_push tile txn
    if r.1 then
      { r.2 with txn_count := (r.2.txn_count + 1) % ULONG_MOD, frag_buf := [] }
    else
      { r.2 with frag_buf := [] }

/-! ### Housekeeping (fd_sequencer_tile.c lines 191-256) -/

/-- `fd_sequencer_tile_during_housekeeping` (fd_sequencer_tile.c lines
191-256).  `now` stands for the external `fd_tickcount()` (1 tick = 1 ns
in this build) and `wallclock` for `fd_log_wallclock()`.  Returns the
updated tile and, when the block interval elapsed, the produced header
with its transactions (the C code's publish point).  The negative-
elapsed clamp of line 202 coincides with truncated `Nat` subtraction. -/
def fd_sequencer_tile_during_housekeeping (tile : fd_sequencer_tile)
    (now wallclock : Nat) :
    fd_sequencer_tile × Option (fd_sequencer_block_hdr × List fd_sequencer_txn) :=
  let elapsed_ns := now - tile.block_start_ticks
  if elapsed_ns < tile.cfg.block_time_ns then (tile, none)
  else
    let max_txns := min tile.cfg.max_txns_per_block 10000
    let b := fd_sequencer_build_block tile wallclock max_txns
    let hdr := b.2.1
    let tile2 :=
      { b.2.2.2 with parent_hash := fd_sha256 (fd_sequencer_block_hdr_bytes hdr) }
    let tile3 := (fd_sequencer_advance_slot tile2).2
    ({ tile3 with block_start_ticks := now }, some (hdr, b.2.2.1))

/-! ### Scratch sizing and init (fd_sequencer_tile.c lines 24-91) -/

/-- `sizeof(fd_sequencer_txn_t)` on x86-64: payload 1232 at offset 0,
payload_sz 8 at 1232, fee 8 at 1240, received_ticks 8 at 1248, sig 64 at
1256; no padding; total 1320. -/
def sizeof_fd_sequencer_txn : Nat := 1232 + 8 + 8 + 8 + 64

/-- `sizeof(fd_sequencer_tile_t)` on x86-64: sequencer_identity 32,
sequencer_privkey 64, current_slot 8, current_epoch 8, block_count 8,
txn_count 8, block_start_ticks 8, parent_hash 32, tx_queue pointer 8,
tx_queue_cnt 8, tx_queue_cap 8, fee_total 8, last_metrics_ticks 8,
cfg 24, frag_buf 1232, frag_buf_sz 8; no padding; total 1472. -/
def sizeof_fd_sequencer_tile : Nat :=
  32 + 64 + 8 + 8 + 8 + 8 + 8 + 32 + 8 + 8 + 8 + 8 + 8 + 24 + 1232 + 8

/-- `fd_sequencer_tile_scratch_footprint` (fd_sequencer_tile.c lines 29-32). -/
def fd_sequencer_tile_scratch_footprint : Nat := FD_SEQUENCER_TILE_FOOTPRINT

/-- The `required` scratch size computed by
`fd_sequencer_tile_unprivileged_init` (fd_sequencer_tile.c lines 42-43). -/
def fd_sequencer_init_required : Nat :=
  sizeof_fd_sequencer_tile + FD_SEQUENCER_QUEUE_MAX * sizeof_fd_sequencer_txn

/-- `fd_sequencer_tile_unprivileged_init` (fd_sequencer_tile.c lines
38-91).  `none` models the failed size check (FD_LOG_ERR + NULL return);
otherwise the zero-initialized tile with default config, empty queue of
capacity FD_SEQUENCER_QUEUE_MAX, all-zero genesis parent hash, and the
tick mark `now` (the external `fd_tickcount()`). -/
def fd_sequencer_tile_unprivileged_init (scratch_sz : Nat) (now : Nat) :
    Option fd_sequencer_tile :=
  if scratch_sz < fd_sequencer_init_required then none
  else
    some
      { sequencer_identity := List.replicate 32 0
        sequencer_privkey := List.replicate 64 0
        current_slot := 0
        current_epoch := 0
        block_count := 0
        txn_count := 0
        block_start_ticks := now
        parent_hash := List.replicate 32 0
        tx_queue := []
        tx_queue_cap := FD_SEQUENCER_QUEUE_MAX
        fee_total := 0
        last_metrics_ticks := now
        cfg := FD_SEQUENCER_CFG_DEFAULT
        frag_buf := [] }

/-! ### Operation sequences over the queue, for the heap invariant -/

/-- One queue operation: a push of a given entry, or a pop. -/
inductive QueueOp where
  | push (txn : fd_sequencer_txn)
  | pop
deriving Repr

/-- Apply one queue operation to the tile (a failed push or pop leaves
the tile unchanged, as in the C code). -/
def applyQueueOp (tile : fd_sequencer_tile) : QueueOp → fd_sequencer_tile
  | QueueOp.push t => (fd_sequencer_txn_queue_push tile t).2
  | QueueOp.pop =>
    match fd_sequencer_txn_queue_pop tile with
    | none => tile
    | some r => r.2

/-- Apply a sequence of queue operations, front first. -/
def applyQueueOps : List QueueOp → fd_sequencer_tile → fd_sequencer_tile
  | [], tile => tile
  | op :: rest, tile => applyQueueOps rest (applyQueueOp tile op)

/-- The max-heap property of the live queue region (fd_sequencer_tile.h
line 84, fd_sequencer.h lines 15-17): every non-root entry's fee is at
most its parent's fee. -/
def IsMaxHeap (q : List fd_sequencer_txn) : Prop :=
  ∀ i, i < q.length → 0 < i → (qget q i).fee ≤ (qget q ((i - 1) / 2)).fee

instance (q : List fd_sequencer_txn) : Decidable (IsMaxHeap q) := by
  unfold IsMaxHeap
  exact Nat.decidableBallLT _ _

/-! ### Access lemmas for `qget`, `lswap` and the pop shrink step -/

theorem qget_set_self (q : List fd_sequencer_txn) (i : Nat)
    (v : fd_sequencer_txn) (h : i < q.length) : qget (q.set i v) i = v := by
  simp [qget, List.getElem?_set_self h]

theorem qget_set_ne (q : List fd_sequencer_txn) (i j : Nat)
    (v : fd_sequencer_txn) (h : i ≠ j) : qget (q.set i v) j = qget q j := by
  simp [qget, List.getElem?_set_ne h]

theorem qget_lswap_fst (q : List fd_sequencer_txn) (i j : Nat)
    (hi : i < q.length) (hj : j < q.length) :
    qget (lswap q i j) i = qget q j := by
  by_cases hij : i = j
  · subst hij
    rw [lswap, qget_set_self _ _ _ (by simpa using hi)]
  · rw [lswap, qget_set_ne _ _ _ _ (fun h => hij h.symm), qget_set_self _ _ _ hi]

theorem qget_lswap_snd (q : List fd_sequencer_txn) (i j : Nat)
    (hj : j < q.length) : qget (lswap q i j) j = qget q i := by
  rw [lswap, qget_set_self _ _ _ (by simpa using hj)]

theorem qget_lswap_other (q : List fd_sequencer_txn) (i j m : Nat)
    (hmi : m ≠ i) (hmj : m ≠ j) : qget (lswap q i j) m = qget q m := by
  rw [lswap, qget_set_ne _ _ _ _ (fun h => hmj h.symm),
    qget_set_ne _ _ _ _ (fun h => hmi h.symm)]

theorem qget_append_lt (q : List fd_sequencer_txn) (x : fd_sequencer_txn)
    (i : Nat) (h : i < q.length) : qget (q ++ [x]) i = qget q i := by
  simp [qget, List.getElem?_append, h]

theorem qget_append_len (q : List fd_sequencer_txn) (x : fd_sequencer_txn) :
    qget (q ++ [x]) q.length = x := by
  simp [qget]

theorem qget_mem (q : List fd_sequencer_txn) (i : Nat) (h : i < q.length) :
    qget q i ∈ q := by
  rw [qget, List.getElem?_eq_getElem h]
  exact List.getElem_mem h

theorem mem_lswap (q : List fd_sequencer_txn) (i j : Nat)
    (hi : i < q.length) (hj : j < q.length) (x : fd_sequencer_txn)
    (hx : x ∈ lswap q i j) : x ∈ q := by
  rcases List.mem_or_eq_of_mem_set hx with hx1 | hx1
  · rcases List.mem_or_eq_of_mem_set hx1 with hx2 | hx2
    · exact hx2
    · exact hx2 ▸ qget_mem q j hj
  · exact hx1 ▸ qget_mem q i hi

theorem length_siftUp (q : List fd_sequencer_txn) (k : Nat) :
    (siftUp q k).length = q.length := by
  induction q, k using siftUp.induct with
  | case1 q => rw [siftUp, if_pos rfl]
  | case2 q k h hle => rw [siftUp, if_neg h, if_pos hle]
  | case3 q k h hle ih => rw [siftUp, if_neg h, if_neg hle, ih, length_lswap]

theorem length_siftDown (q : List fd_sequencer_txn) (k : Nat) :
    (siftDown q k).length = q.length := by
  induction q, k using siftDown.induct with
  | case1 q k h => rw [siftDown, if_pos h]
  | case2 q k h ih => rw [siftDown, if_neg h, ih, length_lswap]

theorem mem_siftDown (q : List fd_sequencer_txn) (k : Nat)
    (x : fd_sequencer_txn) (hx : x ∈ siftDown q k) : x ∈ q := by
  induction q, k using siftDown.induct with
  | case1 q k h => rwa [siftDown, if_pos h] at hx
  | case2 q k h ih =>
    rw [siftDown, if_neg h] at hx
    have hb := bestChild_ne_lt q k h
    exact mem_lswap q k (bestChild q k) (by omega) hb.2 x (ih hx)

theorem mem_siftUp (q : List fd_sequencer_txn) (k : Nat) (hk : k < q.length)
    (x : fd_sequencer_txn) (hx : x ∈ siftUp q k) : x ∈ q := by
  induction q, k using siftUp.induct with
  | case1 q => rwa [siftUp, if_pos rfl] at hx
  | case2 q k h hle => rwa [siftUp, if_neg h, if_pos hle] at hx
  | case3 q k h hle ih =>
    rw [siftUp, if_neg h, if_neg hle] at hx
    have hp : (k - 1) / 2 < q.length := by omega
    have := ih (by rwa [length_lswap]) hx
    exact mem_lswap q k ((k - 1) / 2) hk hp x this

/-! ### Sift-up correctness -/

/-- Sift-up loop invariant: the heap edge into `k` is the only one that
may be violated, and `k`'s children are dominated by `k`'s parent (so a
swap into the parent slot keeps them dominated). -/
def UpInv (q : List fd_sequencer_txn) (k : Nat) : Prop :=
  (∀ i, i < q.length → 0 < i → i ≠ k →
    (qget q i).fee ≤ (qget q ((i - 1) / 2)).fee) ∧
  (0 < k → ∀ j, j < q.length → (j - 1) / 2 = k →
    (qget q j).fee ≤ (qget q ((k - 1) / 2)).fee)

theorem up_base (q : List fd_sequencer_txn) (x : fd_sequencer_txn)
    (hq : IsMaxHeap q) : UpInv (q ++ [x]) q.length := by
  constructor
  · intro i hi hi0 hik
    rw [List.length_append] at hi
    have hilt : i < q.length := by simp at hi; omega
    have hplt : (i - 1) / 2 < q.length := by omega
    rw [qget_append_lt q x i hilt, qget_append_lt q x _ hplt]
    exact hq i hilt hi0
  · intro hk0 j hj hjp
    rw [List.length_append] at hj
    simp at hj
    omega

theorem up_step (q : List fd_sequencer_txn) (k : Nat) (hk : k < q.length)
    (hk0 : 0 < k) (hinv : UpInv q k)
    (hlt : (qget q ((k - 1) / 2)).fee < (qget q k).fee) :
    UpInv (lswap q k ((k - 1) / 2)) ((k - 1) / 2) := by
  obtain ⟨hA, hB⟩ := hinv
  set p := (k - 1) / 2 with hpdef
  have hpk : p < k := by omega
  have hpl : p < q.length := by omega
  have hqk := qget_lswap_fst q k p hk hpl
  have hqp := qget_lswap_snd q k p hpl
  constructor
  · intro i hi hi0 hip
    rw [length_lswap] at hi
    by_cases hik : i = k
    · subst hik
      have hpar : (i - 1) / 2 = p := hpdef.symm
      rw [hpar, hqk, hqp]
      exact le_of_lt hlt
    · have hqi := qget_lswap_other q k p i hik hip
      by_cases hpik : (i - 1) / 2 = k
      · rw [hqi, hpik, hqk]
        exact hB hk0 i hi hpik
      · by_cases hpip : (i - 1) / 2 = p
        · rw [hqi, hpip, hqp]
          have h1 := hA i hi hi0 hik
          rw [hpip] at h1
          exact le_trans h1 (le_of_lt hlt)
        · rw [hqi, qget_lswap_other q k p ((i - 1) / 2) hpik hpip]
          exact hA i hi hi0 hik
  · intro hp0 j hj hjp
    rw [length_lswap] at hj
    have hgk : (p - 1) / 2 ≠ k := by omega
    have hgp : (p - 1) / 2 ≠ p := by omega
    rw [qget_lswap_other q k p ((p - 1) / 2) hgk hgp]
    by_cases hjk : j = k
    · subst hjk
      rw [hqk]
      exact hA p hpl hp0 (by omega)
    · have hjp' : j ≠ p := by omega
      rw [qget_lswap_other q k p j hjk hjp']
      have h1 := hA j hj (by omega) hjk
      rw [hjp] at h1
      exact le_trans h1 (hA p hpl hp0 (by omega))

theorem siftUp_heap (q : List fd_sequencer_txn) (k : Nat) (hk : k < q.length)
    (hinv : UpInv q k) : IsMaxHeap (siftUp q k) := by
  induction q, k using siftUp.induct with
  | case1 q =>
    rw [siftUp, if_pos rfl]
    intro i hi hi0
    exact hinv.1 i hi hi0 (by omega)
  | case2 q k h hle =>
    rw [siftUp, if_neg h, if_pos hle]
    intro i hi hi0
    by_cases hik : i = k
    · subst hik
      exact hle
    · exact hinv.1 i hi hi0 hik
  | case3 q k h hle ih =>
    rw [siftUp, if_neg h, if_neg hle]
    exact ih (by rw [length_lswap]; omega)
      (up_step q k hk (by omega) hinv (not_le.mp hle))

/-! ### Sift-down correctness -/

/-- Sift-down loop invariant: the heap edges out of `k` are the only
ones that may be violated, and `k`'s children are dominated by `k`'s
parent. -/
def DownInv (q : List fd_sequencer_txn) (k : Nat) : Prop :=
  (∀ i, i < q.length → 0 < i → (i - 1) / 2 ≠ k →
    (qget q i).fee ≤ (qget q ((i - 1) / 2)).fee) ∧
  (0 < k → ∀ j, j < q.length → (j - 1) / 2 = k →
    (qget q j).fee ≤ (qget q ((k - 1) / 2)).fee)

theorem bestChild_eq_le (q : List fd_sequencer_txn) (k : Nat)
    (h : bestChild q k = k) :
    (2 * k + 1 < q.length → (qget q (2 * k + 1)).fee ≤ (qget q k).fee) ∧
    (2 * k + 2 < q.length → (qget q (2 * k + 2)).fee ≤ (qget q k).fee) := by
  simp only [bestChild] at h
  by_cases h1 : 2 * k + 1 < q.length ∧ (qget q k).fee < (qget q (2 * k + 1)).fee
  · rw [if_pos h1] at h
    by_cases h2 : 2 * k + 2 < q.length ∧
        (qget q (2 * k + 1)).fee < (qget q (2 * k + 2)).fee
    · rw [if_pos h2] at h
      omega
    · rw [if_neg h2] at h
      omega
  · rw [if_neg h1] at h
    by_cases h2 : 2 * k + 2 < q.length ∧ (qget q k).fee < (qget q (2 * k + 2)).fee
    · rw [if_pos h2] at h
      omega
    · exact ⟨fun hl => not_lt.mp (not_and.mp h1 hl),
        fun hr => not_lt.mp (not_and.mp h2 hr)⟩

theorem bestChild_ne_spec (q : List fd_sequencer_txn) (k : Nat)
    (h : bestChild q k ≠ k) :
    (bestChild q k = 2 * k + 1 ∨ bestChild q k = 2 * k + 2) ∧
    (qget q k).fee < (qget q (bestChild q k)).fee ∧
    (∀ j, j < q.length → (j - 1) / 2 = k →
      (qget q j).fee ≤ (qget q (bestChild q k)).fee) := by
  simp only [bestChild] at h ⊢
  by_cases h1 : 2 * k + 1 < q.length ∧ (qget q k).fee < (qget q (2 * k + 1)).fee
  · rw [if_pos h1] at h ⊢
    by_cases h2 : 2 * k + 2 < q.length ∧
        (qget q (2 * k + 1)).fee < (qget q (2 * k + 2)).fee
    · rw [if_pos h2]
      refine ⟨Or.inr rfl, lt_trans h1.2 h2.2, ?_⟩
      intro j hj hjp
      have hj12 : j = 2 * k + 1 ∨ j = 2 * k + 2 ∨ j = k := by omega
      rcases hj12 with rfl | rfl | rfl
      · exact le_of_lt h2.2
      · exact le_rfl
      · exact le_of_lt (lt_trans h1.2 h2.2)
    · rw [if_neg h2]
      refine ⟨Or.inl rfl, h1.2, ?_⟩
      intro j hj hjp
      have hj12 : j = 2 * k + 1 ∨ j = 2 * k + 2 ∨ j = k := by omega
      rcases hj12 with rfl | rfl | rfl
      · exact le_rfl
      · exact not_lt.mp (not_and.mp h2 hj)
      · exact le_of_lt h1.2
  · rw [if_neg h1] at h ⊢
    by_cases h2 : 2 * k + 2 < q.length ∧ (qget q k).fee < (qget q (2 * k + 2)).fee
    · rw [if_pos h2]
      refine ⟨Or.inr rfl, h2.2, ?_⟩
      intro j hj hjp
      have hj12 : j = 2 * k + 1 ∨ j = 2 * k + 2 ∨ j = k := by omega
      rcases hj12 with rfl | rfl | rfl
      · exact le_trans (not_lt.mp (not_and.mp h1 hj)) (le_of_lt h2.2)
      · exact le_rfl
      · exact le_of_lt h2.2
    · rw [if_neg h2] at h
      exact absurd rfl h

theorem down_stop (q : List fd_sequencer_txn) (k : Nat)
    (h : bestChild q k = k) (hinv : DownInv q k) : IsMaxHeap q := by
  intro i hi hi0
  by_cases hp : (i - 1) / 2 = k
  · have hb := bestChild_eq_le q k h
    have hi12 : i = 2 * k + 1 ∨ i = 2 * k + 2 := by omega
    rw [hp]
    rcases hi12 with rfl | rfl
    · exact hb.1 hi
    · exact hb.2 hi
  · exact hinv.1 i hi hi0 hp

theorem down_step (q : List fd_sequencer_txn) (k : Nat)
    (hinv : DownInv q k) (h : bestChild q k ≠ k) :
    DownInv (lswap q k (bestChild q k)) (bestChild q k) := by
  obtain ⟨hA, hB⟩ := hinv
  obtain ⟨hbc, hblt, hbmax⟩ := bestChild_ne_spec q k h
  obtain ⟨hkb1, hkb2⟩ := bestChild_ne_lt q k h
  set b := bestChild q k with hbdef
  have hkl : k < q.length := by omega
  have hq'b := qget_lswap_snd q k b hkb2
  have hq'k := qget_lswap_fst q k b hkl hkb2
  have hpb : (b - 1) / 2 = k := by omega
  constructor
  · intro i hi hi0 hib
    rw [length_lswap] at hi
    by_cases hik : i = k
    · subst hik
      rw [hq'k, qget_lswap_other q i b ((i - 1) / 2) (by omega) (by omega)]
      exact hB hi0 b hkb2 hpb
    · by_cases hib2 : i = b
      · subst hib2
        rw [hpb, hq'b, hq'k]
        exact le_of_lt hblt
      · have hq'i := qget_lswap_other q k b i hik hib2
        by_cases hpik : (i - 1) / 2 = k
        · rw [hq'i, hpik, hq'k]
          exact hbmax i hi hpik
        · rw [hq'i, qget_lswap_other q k b ((i - 1) / 2) hpik hib]
          exact hA i hi hi0 hpik
  · intro hb0 j hj hjp
    rw [length_lswap] at hj
    rw [hpb, hq'k]
    have hjb : j ≠ b := by omega
    have hjk : j ≠ k := by omega
    rw [qget_lswap_other q k b j hjk hjb]
    have h1 := hA j hj (by omega) (by omega)
    rw [hjp] at h1
    exact h1

theorem siftDown_heap (q : List fd_sequencer_txn) (k : Nat)
    (hinv : DownInv q k) : IsMaxHeap (siftDown q k) := by
  induction q, k using siftDown.induct with
  | case1 q k h =>
    rw [siftDown, if_pos h]
    exact down_stop q k h hinv
  | case2 q k h ih =>
    rw [siftDown, if_neg h]
    exact ih (down_step q k hinv h)

theorem down_base (q : List fd_sequencer_txn) (hq : IsMaxHeap q)
    (h2 : 2 ≤ q.length) :
    DownInv ((q.set 0 (qget q (q.length - 1))).take (q.length - 1)) 0 := by
  have hget : ∀ m, m < q.length - 1 → m ≠ 0 →
      qget ((q.set 0 (qget q (q.length - 1))).take (q.length - 1)) m =
        qget q m := by
    intro m hm hm0
    simp only [qget, List.getElem?_take, if_pos hm,
      List.getElem?_set_ne (Ne.symm hm0)]
  constructor
  · intro i hi hi0 hip
    have hlen :
        ((q.set 0 (qget q (q.length - 1))).take (q.length - 1)).length =
          q.length - 1 := by
      simp [List.length_take]
    rw [hlen] at hi
    rw [hget i hi (by omega), hget ((i - 1) / 2) (by omega) hip]
    exact hq i (by omega) hi0
  · exact fun h0 => absurd h0 (by omega)

/-! ### Push and pop preserve the heap invariant; the root is the maximum -/

theorem push_snd_heap (tile : fd_sequencer_tile) (txn : fd_sequencer_txn)
    (hq : IsMaxHeap tile.tx_queue) :
    IsMaxHeap (fd_sequencer_txn_queue_push tile txn).2.tx_queue := by
  unfold fd_sequencer_txn_queue_push
  split
  · exact hq
  · show IsMaxHeap (siftUp (tile.tx_queue ++ [txn]) tile.tx_queue.length)
    exact siftUp_heap _ _ (by simp) (up_base _ _ hq)

theorem push_snd_queue_length (tile : fd_sequencer_tile)
    (txn : fd_sequencer_txn) :
    (fd_sequencer_txn_queue_push tile txn).2.tx_queue.length ≤
      max tile.tx_queue.length
        (min (tile.tx_queue.length + 1) tile.tx_queue_cap) := by
  unfold fd_sequencer_txn_queue_push
  split
  · simp
  · rename_i hlt
    show (siftUp (tile.tx_queue ++ [txn]) tile.tx_queue.length).length ≤ _
    rw [length_siftUp]
    simp only [List.length_append, List.length_cons, List.length_nil]
    omega

theorem push_snd_cap (tile : fd_sequencer_tile) (txn : fd_sequencer_txn) :
    (fd_sequencer_txn_queue_push tile txn).2.tx_queue_cap =
      tile.tx_queue_cap := by
  unfold fd_sequencer_txn_queue_push
  split <;> rfl

/-- Characterization of a successful pop, used by all pop lemmas. -/
theorem pop_eq (tile : fd_sequencer_tile) (h : tile.tx_queue.length ≠ 0) :
    fd_sequencer_txn_queue_pop tile =
      some (qget tile.tx_queue 0,
        { tile with
            tx_queue :=
              if 0 < tile.tx_queue.length - 1 then
                siftDown ((tile.tx_queue.set 0
                  (qget tile.tx_queue (tile.tx_queue.length - 1))).take
                    (tile.tx_queue.length - 1)) 0
              else tile.tx_queue.take (tile.tx_queue.length - 1) }) := by
  unfold fd_sequencer_txn_queue_pop
  rw [if_neg h]

theorem pop_none (tile : fd_sequencer_tile) (h : tile.tx_queue.length = 0) :
    fd_sequencer_txn_queue_pop tile = none := by
  unfold fd_sequencer_txn_queue_pop
  rw [if_pos h]

theorem pop_snd_heap (tile : fd_sequencer_tile) (hq : IsMaxHeap tile.tx_queue)
    (t : fd_sequencer_txn) (tile' : fd_sequencer_tile)
    (hpop : fd_sequencer_txn_queue_pop tile = some (t, tile')) :
    IsMaxHeap tile'.tx_queue := by
  by_cases h0 : tile.tx_queue.length = 0
  · rw [pop_none tile h0] at hpop
    exact absurd hpop (by simp)
  · rw [pop_eq tile h0] at hpop
    simp only [Option.some.injEq, Prod.mk.injEq] at hpop
    rw [← hpop.2]
    by_cases h1 : 0 < tile.tx_queue.length - 1
    · simp only [if_pos h1]
      exact siftDown_heap _ _ (down_base tile.tx_queue hq (by omega))
    · simp only [if_neg h1]
      intro i hi
      rw [List.length_take] at hi
      omega

theorem pop_snd_subset (tile : fd_sequencer_tile)
    (t : fd_sequencer_txn) (tile' : fd_sequencer_tile)
    (hpop : fd_sequencer_txn_queue_pop tile = some (t, tile'))
    (x : fd_sequencer_txn) (hx : x ∈ tile'.tx_queue) : x ∈ tile.tx_queue := by
  by_cases h0 : tile.tx_queue.length = 0
  · rw [pop_none tile h0] at hpop
    exact absurd hpop (by simp)
  · rw [pop_eq tile h0] at hpop
    simp only [Option.some.injEq, Prod.mk.injEq] at hpop
    rw [← hpop.2] at hx
    by_cases h1 : 0 < tile.tx_queue.length - 1
    · rw [if_pos h1] at hx
      have hx1 := mem_siftDown _ _ _ hx
      have hx2 := List.mem_of_mem_take hx1
      rcases List.mem_or_eq_of_mem_set hx2 with hx3 | hx3
      · exact hx3
      · exact hx3 ▸ qget_mem tile.tx_queue _ (by omega)
    · rw [if_neg h1] at hx
      exact List.mem_of_mem_take hx

theorem pop_fst_root (tile : fd_sequencer_tile)
    (t : fd_sequencer_txn) (tile' : fd_sequencer_tile)
    (hpop : fd_sequencer_txn_queue_pop tile = some (t, tile')) :
    t = qget tile.tx_queue 0 ∧ t ∈ tile.tx_queue := by
  by_cases h0 : tile.tx_queue.length = 0
  · rw [pop_none tile h0] at hpop
    exact absurd hpop (by simp)
  · rw [pop_eq tile h0] at hpop
    simp only [Option.some.injEq, Prod.mk.injEq] at hpop
    exact ⟨hpop.1.symm, hpop.1 ▸ qget_mem tile.tx_queue 0 (by omega)⟩

theorem heap_root_max (q : List fd_sequencer_txn) (hq : IsMaxHeap q) :
    ∀ i, i < q.length → (qget q i).fee ≤ (qget q 0).fee := by
  intro i
  induction i using Nat.strong_induction_on with
  | _ i ih =>
    intro hi
    rcases Nat.eq_zero_or_pos i with rfl | hi0
    · exact le_rfl
    · exact le_trans (hq i hi hi0) (ih ((i - 1) / 2) (by omega) (by omega))

theorem heap_mem_le_root (q : List fd_sequencer_txn) (hq : IsMaxHeap q)
    (x : fd_sequencer_txn) (hx : x ∈ q) : x.fee ≤ (qget q 0).fee := by
  obtain ⟨i, hi, hix⟩ := List.mem_iff_getElem.mp hx
  have := heap_root_max q hq i hi
  rwa [qget, List.getElem?_eq_getElem hi, Option.getD_some, hix] at this

theorem pop_fst_max (tile : fd_sequencer_tile) (hq : IsMaxHeap tile.tx_queue)
    (t : fd_sequencer_txn) (tile' : fd_sequencer_tile)
    (hpop : fd_sequencer_txn_queue_pop tile = some (t, tile'))
    (x : fd_sequencer_txn) (hx : x ∈ tile.tx_queue) : x.fee ≤ t.fee := by
  rw [(pop_fst_root tile t tile' hpop).1]
  exact heap_mem_le_root tile.tx_queue hq x hx

/-! ### Drain lemmas -/

theorem drain_mem (m : Nat) (tile : fd_sequencer_tile)
    (x : fd_sequencer_txn) (hx : x ∈ (drainQueue m tile).1) :
    x ∈ tile.tx_queue := by
  induction m generalizing tile with
  | zero => exact absurd hx (by simp [drainQueue])
  | succ m ih =>
    rw [drainQueue] at hx
    rcases hp : fd_sequencer_txn_queue_pop tile with _ | r
    · rw [hp] at hx
      exact absurd hx (by simp)
    · rw [hp] at hx
      simp only [List.mem_cons] at hx
      rcases hx with rfl | hx
      · exact (pop_fst_root tile _ _ hp).2
      · exact pop_snd_subset tile r.1 r.2 hp x (ih r.2 hx)

theorem drain_pairwise (m : Nat) (tile : fd_sequencer_tile)
    (hq : IsMaxHeap tile.tx_queue) :
    List.Pairwise (fun a b : fd_sequencer_txn => b.fee ≤ a.fee)
      (drainQueue m tile).1 := by
  induction m generalizing tile with
  | zero => simp [drainQueue]
  | succ m ih =>
    rw [drainQueue]
    rcases hp : fd_sequencer_txn_queue_pop tile with _ | r
    · simp
    · simp only [List.pairwise_cons]
      have hq' := pop_snd_heap tile hq r.1 r.2 hp
      refine ⟨?_, ih r.2 hq'⟩
      intro b hb
      have hb1 : b ∈ r.2.tx_queue := drain_mem m r.2 b hb
      have hb2 : b ∈ tile.tx_queue := pop_snd_subset tile r.1 r.2 hp b hb1
      exact pop_fst_max tile hq r.1 r.2 hp b hb2

/-! ### The queue invariant along operation sequences -/

/-- State invariant of the priority queue: max-heap order and
count ≤ capacity. -/
def QueueInv (tile : fd_sequencer_tile) : Prop :=
  IsMaxHeap tile.tx_queue ∧ tile.tx_queue.length ≤ tile.tx_queue_cap

theorem pop_snd_length (tile : fd_sequencer_tile) (t : fd_sequencer_txn)
    (tile' : fd_sequencer_tile)
    (hpop : fd_sequencer_txn_queue_pop tile = some (t, tile')) :
    tile'.tx_queue.length = tile.tx_queue.length - 1 ∧
    tile'.tx_queue_cap = tile.tx_queue_cap := by
  by_cases h0 : tile.tx_queue.length = 0
  · rw [pop_none tile h0] at hpop
    exact absurd hpop (by simp)
  · rw [pop_eq tile h0] at hpop
    simp only [Option.some.injEq, Prod.mk.injEq] at hpop
    rw [← hpop.2]
    dsimp only
    refine ⟨?_, rfl⟩
    split
    · rw [length_siftDown]
      simp only [List.length_take, List.length_set]
      omega
    · simp only [List.length_take]
      omega

theorem applyQueueOp_inv (tile : fd_sequencer_tile) (op : QueueOp)
    (h : QueueInv tile) : QueueInv (applyQueueOp tile op) := by
  obtain ⟨hh, hl⟩ := h
  cases op with
  | push txn =>
    have hlen : (fd_sequencer_txn_queue_push tile txn).2.tx_queue.length ≤
        tile.tx_queue_cap := by
      unfold fd_sequencer_txn_queue_push
      split
      · exact hl
      · rename_i hlt
        show (siftUp (tile.tx_queue ++ [txn]) tile.tx_queue.length).length ≤
          tile.tx_queue_cap
        rw [length_siftUp]
        simp only [List.length_append, List.length_cons, List.length_nil]
        omega
    refine ⟨push_snd_heap tile txn hh, ?_⟩
    show (fd_sequencer_txn_queue_push tile txn).2.tx_queue.length ≤
      (fd_sequencer_txn_queue_push tile txn).2.tx_queue_cap
    rw [push_snd_cap]
    exact hlen
  | pop =>
    rcases hp : fd_sequencer_txn_queue_pop tile with _ | r
    · show QueueInv
        (match fd_sequencer_txn_queue_pop tile with
         | none => tile
         | some r => r.2)
      rw [hp]
      exact ⟨hh, hl⟩
    · have h1 := pop_snd_heap tile hh r.1 r.2 (by rw [hp])
      have h2 := pop_snd_length tile r.1 r.2 (by rw [hp])
      show QueueInv
        (match fd_sequencer_txn_queue_pop tile with
         | none => tile
         | some r => r.2)
      rw [hp]
      refine ⟨h1, ?_⟩
      show r.2.tx_queue.length ≤ r.2.tx_queue_cap
      omega

theorem applyQueueOps_inv (ops : List QueueOp) (tile : fd_sequencer_tile)
    (h : QueueInv tile) : QueueInv (applyQueueOps ops tile) := by
  induction ops generalizing tile with
  | nil => exact h
  | cons op rest ih => exact ih (applyQueueOp tile op) (applyQueueOp_inv tile op h)

theorem peek_some (tile : fd_sequencer_tile) (t : fd_sequencer_txn)
    (h : fd_sequencer_txn_queue_peek tile = some t) :
    t = qget tile.tx_queue 0 ∧ tile.tx_queue.length ≠ 0 := by
  unfold fd_sequencer_txn_queue_peek at h
  split at h
  · exact absurd h (by simp)
  · rename_i h0
    simp only [Option.some.injEq] at h
    exact ⟨h.symm, h0⟩

/-! ### Demonstration states for the concrete scenarios -/

/-- A transaction entry carrying just a fee (the heap orders by fee only). -/
def demoTxn (fee : Nat) : fd_sequencer_txn :=
  { payload := [], payload_sz := 0, fee := fee, received_ticks := 0, sig := [] }

/-- A freshly initialized tile state, as laid out by
`fd_sequencer_tile_unprivileged_init` with a large enough scratch size. -/
def demoTile : fd_sequencer_tile :=
  { sequencer_identity := List.replicate 32 0
    sequencer_privkey := List.replicate 64 0
    current_slot := 0
    current_epoch := 0
    block_count := 0
    txn_count := 0
    block_start_ticks := 0
    parent_hash := List.replicate 32 0
    tx_queue := []
    tx_queue_cap := FD_SEQUENCER_QUEUE_MAX
    fee_total := 0
    last_metrics_ticks := 0
    cfg := FD_SEQUENCER_CFG_DEFAULT
    frag_buf := [] }

/-- The state after pushing fees [100, 500, 200, 900, 300] into the
fresh queue (the concrete scenario of the spec). -/
def demoTile5 : fd_sequencer_tile :=
  applyQueueOps
    ([100, 500, 200, 900, 300].map (fun f => QueueOp.push (demoTxn f)))
    demoTile

theorem demoTile5_queue :
    demoTile5.tx_queue =
      [demoTxn 900, demoTxn 500, demoTxn 200, demoTxn 100, demoTxn 300] := by
  simp [demoTile5, demoTile, applyQueueOps, applyQueueOp,
    fd_sequencer_txn_queue_push, siftUp, lswap, qget, demoTxn,
    FD_SEQUENCER_QUEUE_MAX, List.set]

/-! ### Claim theorems: priority queue -/

/-- C1: for every sequence of push and pop operations on the priority
queue starting from a state satisfying the queue invariant (such as the
freshly initialized empty queue), the stored entries satisfy the
max-heap property (every non-root entry's fee ≤ its parent's fee) with
count ≤ capacity, and peek on a non-empty queue returns a stored entry
whose fee is the maximum fee currently stored. -/
theorem C1_heap_invariant (tile : fd_sequencer_tile) (ops : List QueueOp)
    (hheap : IsMaxHeap tile.tx_queue)
    (hcap : tile.tx_queue.length ≤ tile.tx_queue_cap) :
    IsMaxHeap (applyQueueOps ops tile).tx_queue ∧
    (applyQueueOps ops tile).tx_queue.length ≤
      (applyQueueOps ops tile).tx_queue_cap ∧
    ∀ t, fd_sequencer_txn_queue_peek (applyQueueOps ops tile) = some t →
      t ∈ (applyQueueOps ops tile).tx_queue ∧
      ∀ x ∈ (applyQueueOps ops tile).tx_queue, x.fee ≤ t.fee := by
  obtain ⟨hh, hl⟩ := applyQueueOps_inv ops tile ⟨hheap, hcap⟩
  refine ⟨hh, hl, ?_⟩
  intro t ht
  obtain ⟨hroot, hne⟩ := peek_some _ t ht
  refine ⟨hroot ▸ qget_mem _ 0 (by omega), ?_⟩
  intro x hx
  exact hroot ▸ heap_mem_le_root _ hh x hx

/-- Witness for C1 at a concrete operation sequence from the fresh
empty queue. -/
theorem C1_heap_invariant_witness :
    IsMaxHeap (applyQueueOps
        [QueueOp.push (demoTxn 5), QueueOp.push (demoTxn 9), QueueOp.pop,
          QueueOp.push (demoTxn 3)] demoTile).tx_queue ∧
    (applyQueueOps
        [QueueOp.push (demoTxn 5), QueueOp.push (demoTxn 9), QueueOp.pop,
          QueueOp.push (demoTxn 3)] demoTile).tx_queue.length ≤
      (applyQueueOps
        [QueueOp.push (demoTxn 5), QueueOp.push (demoTxn 9), QueueOp.pop,
          QueueOp.push (demoTxn 3)] demoTile).tx_queue_cap ∧
    ∀ t, fd_sequencer_txn_queue_peek (applyQueueOps
        [QueueOp.push (demoTxn 5), QueueOp.push (demoTxn 9), QueueOp.pop,
          QueueOp.push (demoTxn 3)] demoTile) = some t →
      t ∈ (applyQueueOps
        [QueueOp.push (demoTxn 5), QueueOp.push (demoTxn 9), QueueOp.pop,
          QueueOp.push (demoTxn 3)] demoTile).tx_queue ∧
      ∀ x ∈ (applyQueueOps
        [QueueOp.push (demoTxn 5), QueueOp.push (demoTxn 9), QueueOp.pop,
          QueueOp.push (demoTxn 3)] demoTile).tx_queue, x.fee ≤ t.fee :=
  C1_heap_invariant demoTile
    [QueueOp.push (demoTxn 5), QueueOp.push (demoTxn 9), QueueOp.pop,
      QueueOp.push (demoTxn 3)]
    (by decide) (by decide)

/-- C4: draining N ≤ queue-count entries by repeated pop yields a
non-increasing fee sequence, and in the concrete scenario with fees
[100, 500, 200, 900, 300] pushed into the empty queue, peek returns the
entry with fee 900 and popping all five yields
[900, 500, 300, 200, 100]. -/
theorem C4_drain_ordering :
    (∀ (tile : fd_sequencer_tile) (N : Nat), IsMaxHeap tile.tx_queue →
      N ≤ fd_sequencer_txn_queue_cnt tile →
      List.Pairwise (fun a b => b ≤ a)
        (((drainQueue N tile).1).map fd_sequencer_txn.fee)) ∧
    (fd_sequencer_txn_queue_peek demoTile5).map fd_sequencer_txn.fee =
      some 900 ∧
    ((drainQueue 5 demoTile5).1).map fd_sequencer_txn.fee =
      [900, 500, 300, 200, 100] := by
  refine ⟨?_, ?_, ?_⟩
  · intro tile N hq _hN
    exact List.pairwise_map.mpr (drain_pairwise N tile hq)
  · rw [fd_sequencer_txn_queue_peek, demoTile5_queue]
    simp [qget, demoTxn]
  · have h5 := demoTile5_queue
    simp [drainQueue, fd_sequencer_txn_queue_pop, siftDown, bestChild, lswap,
      qget, h5, demoTxn, List.set]

/-- Witness for C4's general part at the concrete 5-element heap. -/
theorem C4_drain_ordering_witness :
    List.Pairwise (fun a b => b ≤ a)
      (((drainQueue 3 demoTile5).1).map fd_sequencer_txn.fee) :=
  C4_drain_ordering.1 demoTile5 3
    (by rw [IsMaxHeap, demoTile5_queue]; decide)
    (by rw [fd_sequencer_txn_queue_cnt, demoTile5_queue]; decide)

/-- C7: pushing into a queue whose count equals its capacity C fails
(returns 0) and leaves the tile — count and stored entries — unchanged;
popping from a queue with count 0 fails (returns 0) and leaves the state
unchanged (the C code returns before touching the tile). -/
theorem C7_capacity_errors (tile : fd_sequencer_tile)
    (txn : fd_sequencer_txn) :
    (tile.tx_queue.length = tile.tx_queue_cap →
      fd_sequencer_txn_queue_push tile txn = (false, tile)) ∧
    (tile.tx_queue.length = 0 → fd_sequencer_txn_queue_pop tile = none) := by
  constructor
  · intro hfull
    unfold fd_sequencer_txn_queue_push
    rw [if_pos (le_of_eq hfull.symm)]
  · intro hempty
    exact pop_none tile hempty

/-- Witness for C7: a full queue of capacity 1 rejects a push unchanged,
and the fresh empty queue rejects a pop. -/
theorem C7_capacity_errors_witness :
    fd_sequencer_txn_queue_push
      { demoTile with tx_queue := [demoTxn 7], tx_queue_cap := 1 }
      (demoTxn 8) =
      (false, { demoTile with tx_queue := [demoTxn 7], tx_queue_cap := 1 }) ∧
    fd_sequencer_txn_queue_pop demoTile = none :=
  ⟨(C7_capacity_errors
      { demoTile with tx_queue := [demoTxn 7], tx_queue_cap := 1 }
      (demoTxn 8)).1 rfl,
   (C7_capacity_errors demoTile (demoTxn 8)).2 rfl⟩

/-! ### Helper lemmas on block assembly, slot advance and housekeeping -/

theorem advance_slot_current_slot (tile : fd_sequencer_tile) :
    (fd_sequencer_advance_slot tile).2.current_slot =
      (tile.current_slot + 1) % ULONG_MOD := by
  unfold fd_sequencer_advance_slot
  dsimp only
  split <;> rfl

theorem advance_slot_parent_hash (tile : fd_sequencer_tile) :
    (fd_sequencer_advance_slot tile).2.parent_hash = tile.parent_hash := by
  unfold fd_sequencer_advance_slot
  dsimp only
  split <;> rfl

/-- A pop touches only the queue: every other tile field is unchanged. -/
theorem pop_snd_fields (tile : fd_sequencer_tile) (t : fd_sequencer_txn)
    (tile' : fd_sequencer_tile)
    (hpop : fd_sequencer_txn_queue_pop tile = some (t, tile')) :
    tile'.sequencer_identity = tile.sequencer_identity ∧
    tile'.sequencer_privkey = tile.sequencer_privkey ∧
    tile'.current_slot = tile.current_slot ∧
    tile'.parent_hash = tile.parent_hash := by
  by_cases h0 : tile.tx_queue.length = 0
  · rw [pop_none tile h0] at hpop
    exact absurd hpop (by simp)
  · rw [pop_eq tile h0] at hpop
    simp only [Option.some.injEq, Prod.mk.injEq] at hpop
    rw [← hpop.2]
    exact ⟨rfl, rfl, rfl, rfl⟩

/-- Draining touches only the queue and (later) the fee total: identity,
keys, slot and parent hash are unchanged. -/
theorem drain_fields (m : Nat) (tile : fd_sequencer_tile) :
    (drainQueue m tile).2.sequencer_identity = tile.sequencer_identity ∧
    (drainQueue m tile).2.sequencer_privkey = tile.sequencer_privkey ∧
    (drainQueue m tile).2.current_slot = tile.current_slot ∧
    (drainQueue m tile).2.parent_hash = tile.parent_hash := by
  induction m generalizing tile with
  | zero => exact ⟨rfl, rfl, rfl, rfl⟩
  | succ m ih =>
    rcases hp : fd_sequencer_txn_queue_pop tile with _ | r
    · rw [drainQueue, hp]
      exact ⟨rfl, rfl, rfl, rfl⟩
    · rw [drainQueue, hp]
      dsimp only
      have hf := pop_snd_fields tile r.1 r.2 (by rw [hp])
      have hr := ih r.2
      exact ⟨hr.1.trans hf.1, hr.2.1.trans hf.2.1, hr.2.2.1.trans hf.2.2.1,
        hr.2.2.2.trans hf.2.2.2⟩

theorem drain_of_empty (m : Nat) (tile : fd_sequencer_tile)
    (hempty : tile.tx_queue = []) : drainQueue m tile = ([], tile) := by
  cases m with
  | zero => rfl
  | succ m => rw [drainQueue, pop_none tile (by rw [hempty]; rfl)]

/-- Block assembly on an empty queue: the zero-transaction header, with
the signature field left as the 64 memset zero bytes. -/
theorem build_block_empty (tile : fd_sequencer_tile) (wallclock max_txns : Nat)
    (hempty : tile.tx_queue = []) :
    fd_sequencer_build_block tile wallclock max_txns =
      (0,
       { slot := tile.current_slot
         parent_hash := tile.parent_hash
         merkle_root := List.replicate 32 0
         timestamp := 0
         sequencer_pubkey := tile.sequencer_identity
         txn_count := 0
         signature := List.replicate 64 0 },
       [], tile) := by
  unfold fd_sequencer_build_block
  rw [drain_of_empty max_txns tile hempty]
  rfl

/-- The header built by block assembly always carries the tile's rolling
parent hash (both the zero-transaction and the signed branch). -/
theorem build_block_hdr_parent (tile : fd_sequencer_tile)
    (wallclock max_txns : Nat) :
    (fd_sequencer_build_block tile wallclock max_txns).2.1.parent_hash =
      tile.parent_hash := by
  unfold fd_sequencer_build_block
  dsimp only
  split
  · exact (drain_fields max_txns tile).2.2.2
  · exact (drain_fields max_txns tile).2.2.2

/-- Characterization of a housekeeping call whose block interval has
elapsed. -/
theorem housekeeping_produces (tile : fd_sequencer_tile) (now wallclock : Nat)
    (h : ¬ (now - tile.block_start_ticks < tile.cfg.block_time_ns)) :
    fd_sequencer_tile_during_housekeeping tile now wallclock =
      (let b := fd_sequencer_build_block tile wallclock
         (min tile.cfg.max_txns_per_block 10000)
       let tile2 := { b.2.2.2 with
         parent_hash := fd_sha256 (fd_sequencer_block_hdr_bytes b.2.1) }
       ({ (fd_sequencer_advance_slot tile2).2 with block_start_ticks := now },
        some (b.2.1, b.2.2.1))) := by
  unfold fd_sequencer_tile_during_housekeeping
  rw [if_neg h]

/-- After a housekeeping call that produced a block, the rolling parent
hash is the sha256 of the produced header's full bytes, and that header
carried the previous rolling parent hash. -/
theorem housekeeping_parent_hash (tile : fd_sequencer_tile)
    (now wallclock : Nat) (tile' : fd_sequencer_tile)
    (hdr : fd_sequencer_block_hdr) (txns : List fd_sequencer_txn)
    (h : fd_sequencer_tile_during_housekeeping tile now wallclock =
      (tile', some (hdr, txns))) :
    tile'.parent_hash = fd_sha256 (fd_sequencer_block_hdr_bytes hdr) ∧
    hdr.parent_hash = tile.parent_hash := by
  by_cases hc : now - tile.block_start_ticks < tile.cfg.block_time_ns
  · rw [fd_sequencer_tile_during_housekeeping, if_pos hc] at h
    exact absurd h (by simp)
  · rw [housekeeping_produces tile now wallclock hc] at h
    dsimp only at h
    rw [Prod.mk.injEq, Option.some.injEq, Prod.mk.injEq] at h
    obtain ⟨h1, h2, _h3⟩ := h
    constructor
    · rw [← h1, ← h2]
      show (fd_sequencer_advance_slot _).2.parent_hash = _
      rw [advance_slot_parent_hash]
    · rw [← h2, build_block_hdr_parent]

/-! ### Claim theorems: slot advance, housekeeping, staging, init -/

/-- C5: every call to `fd_sequencer_advance_slot` increases the current
slot by exactly 1 (below the ulong wrap), and increases the current
epoch by exactly 1, returning the epoch-boundary flag, iff the new slot
is a nonzero multiple of the configured (nonzero) epoch length; the
epoch never changes otherwise. -/
theorem C5_slot_epoch_advance (tile : fd_sequencer_tile)
    (hslot : tile.current_slot + 1 < ULONG_MOD)
    (hepoch : tile.current_epoch + 1 < ULONG_MOD) :
    (fd_sequencer_advance_slot tile).2.current_slot =
      tile.current_slot + 1 ∧
    ((fd_sequencer_advance_slot tile).1 = true ↔
      (0 < tile.current_slot + 1 ∧
        (tile.current_slot + 1) % tile.cfg.epoch_length_slots = 0)) ∧
    (fd_sequencer_advance_slot tile).2.current_epoch =
      (if 0 < tile.current_slot + 1 ∧
          (tile.current_slot + 1) % tile.cfg.epoch_length_slots = 0
       then tile.current_epoch + 1 else tile.current_epoch) := by
  have hs : (tile.current_slot + 1) % ULONG_MOD = tile.current_slot + 1 :=
    Nat.mod_eq_of_lt hslot
  have he : (tile.current_epoch + 1) % ULONG_MOD = tile.current_epoch + 1 :=
    Nat.mod_eq_of_lt hepoch
  unfold fd_sequencer_advance_slot
  dsimp only
  rw [hs]
  by_cases hc : 0 < tile.current_slot + 1 ∧
      (tile.current_slot + 1) % tile.cfg.epoch_length_slots = 0
  · rw [if_pos hc, if_pos hc]
    refine ⟨rfl, by simp [hc], ?_⟩
    show (tile.current_epoch + 1) % ULONG_MOD = tile.current_epoch + 1
    exact he
  · rw [if_neg hc, if_neg hc]
    refine ⟨rfl, ?_, rfl⟩
    constructor
    · intro hf
      exact absurd hf (by simp)
    · intro hr
      exact absurd hr hc

/-- Witness for C5 at a concrete state one slot before the default
epoch boundary: slot 431999 → 432000, epoch 0 → 1, flag set. -/
theorem C5_slot_epoch_advance_witness :
    (fd_sequencer_advance_slot
        { demoTile with current_slot := 431999 }).2.current_slot =
      { demoTile with current_slot := 431999 }.current_slot + 1 ∧
    ((fd_sequencer_advance_slot { demoTile with current_slot := 431999 }).1 =
        true ↔
      (0 < { demoTile with current_slot := 431999 }.current_slot + 1 ∧
        ({ demoTile with current_slot := 431999 }.current_slot + 1) %
          { demoTile with current_slot := 431999 }.cfg.epoch_length_slots =
          0)) ∧
    (fd_sequencer_advance_slot
        { demoTile with current_slot := 431999 }).2.current_epoch =
      (if 0 < { demoTile with current_slot := 431999 }.current_slot + 1 ∧
          ({ demoTile with current_slot := 431999 }.current_slot + 1) %
            { demoTile with current_slot := 431999 }.cfg.epoch_length_slots =
            0
       then { demoTile with current_slot := 431999 }.current_epoch + 1
       else { demoTile with current_slot := 431999 }.current_epoch) :=
  C5_slot_epoch_advance { demoTile with current_slot := 431999 }
    (by decide) (by decide)

/-- C9: housekeeping triggered with an empty priority queue still
produces a header (the operation does not fail): transaction count 0,
slot, parent commitment and signer public key filled from the sequencer
state, and the slot still advances by exactly 1. -/
theorem C9_empty_block (tile : fd_sequencer_tile) (now wallclock : Nat)
    (hempty : tile.tx_queue = [])
    (helapsed : tile.cfg.block_time_ns ≤ now - tile.block_start_ticks)
    (hslot : tile.current_slot + 1 < ULONG_MOD) :
    (fd_sequencer_tile_during_housekeeping tile now wallclock).2 =
      some
        ({ slot := tile.current_slot
           parent_hash := tile.parent_hash
           merkle_root := List.replicate 32 0
           timestamp := 0
           sequencer_pubkey := tile.sequencer_identity
           txn_count := 0
           signature := List.replicate 64 0 }, []) ∧
    (fd_sequencer_tile_during_housekeeping tile now wallclock).1.current_slot
      = tile.current_slot + 1 := by
  rw [housekeeping_produces tile now wallclock (not_lt.mpr helapsed)]
  dsimp only
  rw [build_block_empty tile wallclock _ hempty]
  refine ⟨rfl, ?_⟩
  show (fd_sequencer_advance_slot _).2.current_slot = _
  rw [advance_slot_current_slot]
  show (tile.current_slot + 1) % ULONG_MOD = _
  exact Nat.mod_eq_of_lt hslot

/-- Witness for C9: the freshly initialized tile at the end of the
first 400 ms interval produces an empty block and moves to slot 1. -/
theorem C9_empty_block_witness :
    (fd_sequencer_tile_during_housekeeping demoTile 400000000 77).2 =
      some
        ({ slot := demoTile.current_slot
           parent_hash := demoTile.parent_hash
           merkle_root := List.replicate 32 0
           timestamp := 0
           sequencer_pubkey := demoTile.sequencer_identity
           txn_count := 0
           signature := List.replicate 64 0 }, []) ∧
    (fd_sequencer_tile_during_housekeeping demoTile 400000000 77).1.current_slot
      = demoTile.current_slot + 1 :=
  C9_empty_block demoTile 400000000 77 rfl (by decide) (by decide)

/-- C6 counterexample: fragment deliveries do not append — delivering
byte 170 and then byte 187 for the same logical unit leaves the staging
buffer holding only the second fragment (size 1), not the concatenation
[170, 187] (size 2). -/
theorem C6_counterexample :
    (fd_sequencer_tile_during_frag
      (fd_sequencer_tile_during_frag demoTile [170] 1) [187] 1).frag_buf =
      [187] ∧
    (fd_sequencer_tile_during_frag
      (fd_sequencer_tile_during_frag demoTile [170] 1) [187] 1).frag_buf_sz =
      1 ∧
    ¬ ((fd_sequencer_tile_during_frag
      (fd_sequencer_tile_during_frag demoTile [170] 1) [187] 1).frag_buf =
      [170, 187]) := by
  refine ⟨rfl, rfl, by decide⟩

/-- C6 (amended): each in-range fragment delivery REPLACES the staging
buffer contents with exactly the delivered bytes — after several
deliveries for the same logical unit the buffer holds the last
fragment's bytes and its size is that fragment's size, whatever was
staged before. -/
theorem C6_staging_replaces (tile : fd_sequencer_tile) (chunk : List Nat)
    (sz : Nat) (hsz : sz ≤ FD_SEQUENCER_TXN_MTU) (hc : sz ≤ chunk.length) :
    (fd_sequencer_tile_during_frag tile chunk sz).frag_buf = chunk.take sz ∧
    (fd_sequencer_tile_during_frag tile chunk sz).frag_buf_sz = sz := by
  unfold fd_sequencer_tile_during_frag
  rw [if_neg (not_lt.mpr hsz)]
  refine ⟨rfl, ?_⟩
  show (chunk.take sz).length = sz
  rw [List.length_take]
  omega

/-- Witness for C6 (amended) at a concrete delivery over non-empty
previous staging content. -/
theorem C6_staging_replaces_witness :
    (fd_sequencer_tile_during_frag { demoTile with frag_buf := [9, 9, 9] }
      [1, 2, 3] 2).frag_buf = [1, 2, 3].take 2 ∧
    (fd_sequencer_tile_during_frag { demoTile with frag_buf := [9, 9, 9] }
      [1, 2, 3] 2).frag_buf_sz = 2 :=
  C6_staging_replaces { demoTile with frag_buf := [9, 9, 9] } [1, 2, 3] 2
    (by decide) (by decide)

/-- The completion callback with an empty staging buffer is a no-op
(fd_sequencer_tile.c line 145). -/
theorem after_frag_empty (tile : fd_sequencer_tile) (now : Nat)
    (hint : Option Nat) (h : tile.frag_buf = []) :
    fd_sequencer_tile_after_frag tile now hint = tile := by
  unfold fd_sequencer_tile_after_frag
  rw [if_pos (by rw [h]; rfl)]

/-- C8: delivering a fragment larger than the MTU discards the staging
buffer (size reset to 0) and the subsequent completion callback pushes
nothing — the queue and the lifetime transaction counter are unchanged. -/
theorem C8_oversized_fragment (tile : fd_sequencer_tile) (chunk : List Nat)
    (sz : Nat) (hsz : FD_SEQUENCER_TXN_MTU < sz) (now : Nat)
    (hint : Option Nat) :
    (fd_sequencer_tile_during_frag tile chunk sz).frag_buf_sz = 0 ∧
    (fd_sequencer_tile_after_frag
      (fd_sequencer_tile_during_frag tile chunk sz) now hint).tx_queue =
      tile.tx_queue ∧
    (fd_sequencer_tile_after_frag
      (fd_sequencer_tile_during_frag tile chunk sz) now hint).txn_count =
      tile.txn_count := by
  have h1 : fd_sequencer_tile_during_frag tile chunk sz =
      { tile with frag_buf := [] } := by
    unfold fd_sequencer_tile_during_frag
    rw [if_pos hsz]
  rw [h1, after_frag_empty { tile with frag_buf := [] } now hint rfl]
  exact ⟨rfl, rfl, rfl⟩

/-- Witness for C8 at a concrete 1233-byte fragment (one over the MTU). -/
theorem C8_oversized_fragment_witness :
    (fd_sequencer_tile_during_frag demoTile (List.replicate 1233 7)
      1233).frag_buf_sz = 0 ∧
    (fd_sequencer_tile_after_frag
      (fd_sequencer_tile_during_frag demoTile (List.replicate 1233 7) 1233)
      5 (some 40)).tx_queue = demoTile.tx_queue ∧
    (fd_sequencer_tile_after_frag
      (fd_sequencer_tile_during_frag demoTile (List.replicate 1233 7) 1233)
      5 (some 40)).txn_count = demoTile.txn_count :=
  C8_oversized_fragment demoTile (List.replicate 1233 7) 1233 (by decide)
    5 (some 40)

/-- C10: the advertised scratch footprint is 2^22 bytes (4 MiB) while
init requires sizeof(fd_sequencer_tile_t) + 65536 *
sizeof(fd_sequencer_txn_t) bytes — each entry is over 1300 bytes, the
queue alone needs over 80 MiB — so initializing with a footprint-sized
region always fails the size check and returns NULL. -/
theorem C10_footprint_too_small (now : Nat) :
    fd_sequencer_tile_scratch_footprint = 2 ^ 22 ∧
    1300 < sizeof_fd_sequencer_txn ∧
    80 * 2 ^ 20 < FD_SEQUENCER_QUEUE_MAX * sizeof_fd_sequencer_txn ∧
    fd_sequencer_tile_scratch_footprint < fd_sequencer_init_required ∧
    fd_sequencer_tile_unprivileged_init fd_sequencer_tile_scratch_footprint
      now = none := by
  refine ⟨rfl, by decide, by decide, by decide, ?_⟩
  unfold fd_sequencer_tile_unprivileged_init
  rw [if_pos (by decide)]

/-! ### Claim theorems: header signing and parent commitment -/

/-- A tile with a well-formed demo key pair (private half 9s, public
half 1s, identity = the public half) and an empty queue. -/
def demoKeyTile : fd_sequencer_tile :=
  { demoTile with
      sequencer_identity := List.replicate 32 1
      sequencer_privkey := List.replicate 32 9 ++ List.replicate 32 1 }

/-- The demo key tile with one queued transaction. -/
def demoKeyTile1 : fd_sequencer_tile :=
  { demoKeyTile with tx_queue := [demoTxn 42] }

/-- C2 counterexample: the claim fails at transaction count zero —
block assembly on an empty queue returns the memset header whose
signature field is the 64 zero bytes, and verification over the
pre-signature byte range fails. -/
theorem C2_counterexample :
    (fd_sequencer_build_block demoKeyTile 123 10).2.1.signature =
      List.replicate 64 0 ∧
    fd_ed25519_verify
      (fd_sequencer_block_hdr_presig_bytes
        (fd_sequencer_build_block demoKeyTile 123 10).2.1)
      (fd_sequencer_build_block demoKeyTile 123 10).2.1.signature
      demoKeyTile.sequencer_identity = false := by
  rw [build_block_empty demoKeyTile 123 10 rfl]
  exact ⟨rfl, by decide⟩

/-- C2 (amended): for every header produced by block assembly that
drained at least one transaction, the 64-byte signature field is the
ed25519 signature, under the sequencer's (well-formed) key pair, over
exactly the serialized header bytes preceding the signature field, so
verification against the signer's public key over that byte range
succeeds. -/
theorem C2_signature_verifies (tile : fd_sequencer_tile)
    (wallclock max_txns : Nat)
    (hkeys : tile.sequencer_privkey.drop 32 = tile.sequencer_identity)
    (hpos : 1 ≤ (fd_sequencer_build_block tile wallclock max_txns).1) :
    (fd_sequencer_build_block tile wallclock max_txns).2.1.signature =
      fd_ed25519_sign
        (fd_sequencer_block_hdr_presig_bytes
          (fd_sequencer_build_block tile wallclock max_txns).2.1)
        tile.sequencer_identity tile.sequencer_privkey ∧
    fd_ed25519_verify
      (fd_sequencer_block_hdr_presig_bytes
        (fd_sequencer_build_block tile wallclock max_txns).2.1)
      (fd_sequencer_build_block tile wallclock max_txns).2.1.signature
      tile.sequencer_identity = true := by
  unfold fd_sequencer_build_block at hpos ⊢
  dsimp only at hpos ⊢
  by_cases hn : (drainQueue max_txns tile).1.length = 0
  · rw [if_pos hn] at hpos
    simp at hpos
  · rw [if_neg hn] at hpos ⊢
    dsimp only
    have hid := (drain_fields max_txns tile).1
    have hpriv := (drain_fields max_txns tile).2.1
    constructor
    · rw [hid, hpriv]
      exact rfl
    · rw [hid, hpriv]
      unfold fd_ed25519_verify fd_ed25519_sign
      rw [hkeys]
      exact decide_eq_true rfl

/-- Witness for C2 (amended) on the demo key tile with one queued
transaction. -/
theorem C2_signature_verifies_witness :
    (fd_sequencer_build_block demoKeyTile1 7 1).2.1.signature =
      fd_ed25519_sign
        (fd_sequencer_block_hdr_presig_bytes
          (fd_sequencer_build_block demoKeyTile1 7 1).2.1)
        demoKeyTile1.sequencer_identity demoKeyTile1.sequencer_privkey ∧
    fd_ed25519_verify
      (fd_sequencer_block_hdr_presig_bytes
        (fd_sequencer_build_block demoKeyTile1 7 1).2.1)
      (fd_sequencer_build_block demoKeyTile1 7 1).2.1.signature
      demoKeyTile1.sequencer_identity = true :=
  C2_signature_verifies demoKeyTile1 7 1 (by decide) (by decide)

/-- The empty-queue block header produced from the fresh demo tile. -/
def demoHdr1 : fd_sequencer_block_hdr :=
  { slot := 0
    parent_hash := List.replicate 32 0
    merkle_root := List.replicate 32 0
    timestamp := 0
    sequencer_pubkey := List.replicate 32 0
    txn_count := 0
    signature := List.replicate 64 0 }

/-- The tile state after the first demo housekeeping block. -/
def demoTileB1 : fd_sequencer_tile :=
  { demoTile with
      parent_hash := fd_sha256 (fd_sequencer_block_hdr_bytes demoHdr1)
      current_slot := 1
      block_count := 1
      block_start_ticks := 400000000 }

/-- The header of the second demo housekeeping block: it carries the
hash of the first header as its parent commitment. -/
def demoHdr2 : fd_sequencer_block_hdr :=
  { demoHdr1 with
      slot := 1
      parent_hash := fd_sha256 (fd_sequencer_block_hdr_bytes demoHdr1) }

/-- The tile state after the second demo housekeeping block. -/
def demoTileB2 : fd_sequencer_tile :=
  { demoTile with
      parent_hash := fd_sha256 (fd_sequencer_block_hdr_bytes demoHdr2)
      current_slot := 2
      block_count := 2
      block_start_ticks := 800000000 }

/-- C3: after each housekeeping invocation that produces a block, the
rolling parent hash equals the sha256 of the full header bytes of the
block just produced, and the next produced header carries that value in
its parent-commitment field — so block N+1's parent commitment is the
hash of block N's full header bytes. -/
theorem C3_parent_commitment_chain (tile : fd_sequencer_tile)
    (now1 wc1 now2 wc2 : Nat) (tile1 tile2 : fd_sequencer_tile)
    (hdr1 hdr2 : fd_sequencer_block_hdr)
    (txns1 txns2 : List fd_sequencer_txn)
    (h1 : fd_sequencer_tile_during_housekeeping tile now1 wc1 =
      (tile1, some (hdr1, txns1)))
    (h2 : fd_sequencer_tile_during_housekeeping tile1 now2 wc2 =
      (tile2, some (hdr2, txns2))) :
    tile1.parent_hash = fd_sha256 (fd_sequencer_block_hdr_bytes hdr1) ∧
    hdr2.parent_hash = fd_sha256 (fd_sequencer_block_hdr_bytes hdr1) ∧
    tile2.parent_hash = fd_sha256 (fd_sequencer_block_hdr_bytes hdr2) := by
  obtain ⟨ha, _hb⟩ := housekeeping_parent_hash tile now1 wc1 tile1 hdr1 txns1 h1
  obtain ⟨hc, hd⟩ := housekeeping_parent_hash tile1 now2 wc2 tile2 hdr2 txns2 h2
  exact ⟨ha, hd.trans ha, hc⟩

set_option maxRecDepth 8000 in
/-- Witness for C3 over two concrete housekeeping invocations from the
fresh tile (empty blocks at ticks 4e8 and 8e8). -/
theorem C3_parent_commitment_chain_witness :
    demoTileB1.parent_hash =
      fd_sha256 (fd_sequencer_block_hdr_bytes demoHdr1) ∧
    demoHdr2.parent_hash =
      fd_sha256 (fd_sequencer_block_hdr_bytes demoHdr1) ∧
    demoTileB2.parent_hash =
      fd_sha256 (fd_sequencer_block_hdr_bytes demoHdr2) :=
  C3_parent_commitment_chain demoTile 400000000 11 800000000 22
    demoTileB1 demoTileB2 demoHdr1 demoHdr2 [] []
    (by
      rw [housekeeping_produces demoTile 400000000 11 (by decide)]
      dsimp only
      rw [build_block_empty demoTile 11
        (min demoTile.cfg.max_txns_per_block 10000) rfl]
      rfl)
    (by
      rw [housekeeping_produces demoTileB1 800000000 22 (by decide)]
      dsimp only
      rw [build_block_empty demoTileB1 22
        (min demoTileB1.cfg.max_txns_per_block 10000) rfl]
      rfl)

end MythicSequencer
